/-
Verification of the fixed-capacity, stack-discipline memory arena
(`MemoryArena` in `src/Arena.hpp`) against its natural-language
specification.

Embedding conventions
---------------------
* Addresses are natural numbers.  `base_ptr` is the (arbitrary) absolute
  address of the backing buffer, `current_ptr` the absolute cursor
  address, `total_size` the capacity in bytes; the logical offset is
  `current_ptr - base_ptr`.
* `size_t` / `uintptr_t` arithmetic is 64-bit: values wrap modulo
  `W = 2 ^ 64`.  Wrapping is made explicit (`% W`) exactly where the
  C++ source performs unsigned machine arithmetic.
* Pointer arithmetic and pointer comparisons in the C++ abstract machine
  are exact (out-of-object pointer overflow is undefined behaviour, not
  wrap-around), so pointer comparisons such as
  `current_ptr - sizeof(T) >= base_ptr` are embedded over `Int`.
* Construction and destruction of `T` objects are observable effects:
  allocation operations report the list of addresses at which a `T` was
  placement-constructed (in execution order), deallocation operations
  report the list of addresses on which `~T()` ran (in execution order).
* `sizeof(T)` and `alignof(T)` become explicit `Nat` parameters
  `sizeT` / `alignT`.  The mutex is dropped: the embedding gives the
  sequential (linearized) semantics of each operation.
-/
import Mathlib

/-- Width of `size_t` / `uintptr_t`: values live in `[0, W)`. -/
def W : Nat := 2 ^ 64

/-- The arena state: `char* const base_ptr; char* current_ptr;
const size_t total_size;` (the mutex carries no mathematical state). -/
structure MemoryArena where
  base_ptr : Nat
  current_ptr : Nat
  total_size : Nat
deriving Repr, DecidableEq

/-- `MemoryArena::MemoryArena(size)`: buffer acquired at some address
`base`, `current_ptr(base_ptr)`, `total_size(size)`. -/
def MemoryArena.mkArena (base size : Nat) : MemoryArena :=
  { base_ptr := base, current_ptr := base, total_size := size }

/-- `MemoryArena::get_alignment`:
`aligned_addr = (addr + alignment - 1) & ~(alignment - 1)` on
`uintptr_t`: every subtraction, addition and complement wraps mod `W`.
For `alignment ≥ 1`, `(alignment + (W-1)) % W = alignment - 1` and
`(W-1) - (alignment-1)` is the 64-bit complement `~(alignment - 1)`. -/
def get_alignment (addr alignment : Nat) : Nat :=
  let am1 := (alignment + (W - 1)) % W
  Nat.land ((addr + am1) % W) ((W - 1) - am1)

/-- Result of `allocate` / `allocate_array`: the returned pointer
(`none` = `nullptr`), the post state, and the addresses at which a `T`
was default-constructed, in execution order. -/
structure AllocResult where
  ptr : Option Nat
  state : MemoryArena
  ctors : List Nat
deriving Repr, DecidableEq

/-- Result of `deallocate` / `deallocate_array` / `reset`: the post
state and the addresses on which `~T()` ran, in execution order. -/
structure DeallocResult where
  state : MemoryArena
  dtors : List Nat
deriving Repr, DecidableEq

/-- `MemoryArena::allocate<T>()`. -/
def allocate (s : MemoryArena) (sizeT alignT : Nat) : AllocResult :=
  let aligned_ptr := get_alignment s.current_ptr alignT
  if aligned_ptr + sizeT > s.base_ptr + s.total_size then
    { ptr := none, state := s, ctors := [] }
  else
    { ptr := some aligned_ptr
      state := { s with current_ptr := aligned_ptr + sizeT }
      ctors := [aligned_ptr] }

/-- `MemoryArena::deallocate<T>(object)`: the destructor call and the
cursor retreat are both inside the underflow guard
`current_ptr - sizeof(T) >= base_ptr`. -/
def deallocate (s : MemoryArena) (sizeT : Nat) (object : Nat) : DeallocResult :=
  if (s.current_ptr : Int) - (sizeT : Int) ≥ (s.base_ptr : Int) then
    { state := { s with current_ptr := s.current_ptr - sizeT }
      dtors := [object] }
  else
    { state := s, dtors := [] }

/-- `MemoryArena::allocate_array<T>(count)`.  `SIZE_MAX = W - 1`;
`count * sizeof(T)` is `size_t` multiplication, hence `% W`. -/
def allocate_array (s : MemoryArena) (sizeT alignT count : Nat) : AllocResult :=
  if count = 0 then { ptr := none, state := s, ctors := [] }
  else if count > (W - 1) / sizeT then { ptr := none, state := s, ctors := [] }
  else
    let array_size := (count * sizeT) % W
    let aligned_ptr := get_alignment s.current_ptr alignT
    if aligned_ptr + array_size > s.base_ptr + s.total_size then
      { ptr := none, state := s, ctors := [] }
    else
      { ptr := some aligned_ptr
        state := { s with current_ptr := aligned_ptr + array_size }
        ctors := (List.range count).map (fun i => aligned_ptr + i * sizeT) }

/-- `MemoryArena::deallocate_array<T>(array, count)`: destructors run
first (indices `count-1` down to `0`), unconditionally; only the cursor
retreat sits behind the underflow guard.  The retreat amount
`array_size = count * sizeof(T)` is unchecked `size_t` multiplication. -/
def deallocate_array (s : MemoryArena) (sizeT count : Nat) (array : Nat) :
    DeallocResult :=
  if count = 0 then { state := s, dtors := [] }
  else
    let array_size := (count * sizeT) % W
    let dtors := (List.range count).reverse.map (fun i => array + i * sizeT)
    if (s.current_ptr : Int) - (array_size : Int) ≥ (s.base_ptr : Int) then
      { state := { s with current_ptr := s.current_ptr - array_size }
        dtors := dtors }
    else
      { state := s, dtors := dtors }

/-- `MemoryArena::reset()`: `current_ptr = base_ptr`; the body contains
no destructor call, so the destructor log is empty. -/
def reset (s : MemoryArena) : DeallocResult :=
  { state := { s with current_ptr := s.base_ptr }, dtors := [] }

/-- `MemoryArena::remaining()`: `total_size - (current_ptr - base_ptr)`. -/
def remaining (s : MemoryArena) : Nat :=
  s.total_size - (s.current_ptr - s.base_ptr)

/-! ### Reachable states

A state is reachable when it arises from construction by any sequence
of the five mutating operations.  Allocation steps carry the two
environment facts C++ guarantees for any real instantiation
`allocate<T>` / `allocate_array<T>`: `alignof(T)` is a power of two,
and buffer plus alignment fit in the address space (a `char[size]`
object at address `base` occupies `[base, base + size)`, and pointers
into it never wrap). -/

inductive Reachable (base size : Nat) : MemoryArena → Prop where
  | init : Reachable base size (MemoryArena.mkArena base size)
  | step_allocate (s : MemoryArena) (sizeT k : Nat) :
      Reachable base size s → base + size + 2 ^ k ≤ W →
      Reachable base size (allocate s sizeT (2 ^ k)).state
  | step_deallocate (s : MemoryArena) (sizeT object : Nat) :
      Reachable base size s →
      Reachable base size (deallocate s sizeT object).state
  | step_allocate_array (s : MemoryArena) (sizeT k count : Nat) :
      Reachable base size s → base + size + 2 ^ k ≤ W →
      Reachable base size (allocate_array s sizeT (2 ^ k) count).state
  | step_deallocate_array (s : MemoryArena) (sizeT count array : Nat) :
      Reachable base size s →
      Reachable base size (deallocate_array s sizeT count array).state
  | step_reset (s : MemoryArena) :
      Reachable base size s → Reachable base size (reset s).state


/-! ### Allocation / deallocation sequences (LIFO round trips)

A round trip performs `allocate<T_1>(), …, allocate<T_n>()` and then
`deallocate<T_n>(), …, deallocate<T_1>()`.  Each `T_i` is represented
by its `(sizeof, alignof)` pair; `deallocate`'s handle argument does
not influence the cursor, so the runner passes `0`. -/

/-- Run a list of `allocate<T>()` calls left to right; `none` as soon
as one returns `nullptr`. -/
def run_allocs (s : MemoryArena) : List (Nat × Nat) → Option MemoryArena
  | [] => some s
  | (sizeT, alignT) :: rest =>
      let r := allocate s sizeT alignT
      match r.ptr with
      | none => none
      | some _ => run_allocs r.state rest

/-- Run a list of `deallocate<T>()` calls left to right. -/
def run_deallocs (s : MemoryArena) : List Nat → MemoryArena
  | [] => s
  | sizeT :: rest => run_deallocs (deallocate s sizeT 0).state rest

/-- Total number of alignment-padding bytes the allocation sequence
inserts (cursor advanced along the success path). -/
def total_padding (s : MemoryArena) : List (Nat × Nat) → Nat
  | [] => 0
  | (sizeT, alignT) :: rest =>
      let a := get_alignment s.current_ptr alignT
      (a - s.current_ptr)
        + total_padding { s with current_ptr := a + sizeT } rest

/-! ### Alignment arithmetic

`(x) & ~(2^k - 1)` on a 64-bit machine clears the low `k` bits:
it equals `2^k * (x / 2^k)`.  From this, `get_alignment` at a
power-of-two alignment computes the smallest multiple of the alignment
that is `≥` the cursor (absent `uintptr_t` wrap-around). -/

/-- Clearing the low `k` bits of `x < 2^64` with the mask
`2^64 - 2^k = ~(2^k - 1)` rounds `x` down to a multiple of `2^k`. -/
theorem land_high_mask (x k : Nat) (hk : k ≤ 64) (hx : x < W) :
    Nat.land x (W - 2 ^ k) = 2 ^ k * (x / 2 ^ k) := by
  have hmask : W - 2 ^ k = 2 ^ k * (2 ^ (64 - k) - 1) := by
    have : 2 ^ k * 2 ^ (64 - k) = W := by
      rw [← pow_add]
      simp [W, Nat.add_sub_cancel' hk]
    rw [Nat.mul_sub, this, Nat.mul_one]
  apply Nat.eq_of_testBit_eq
  intro i
  rw [show Nat.land x (W - 2 ^ k) = x &&& (W - 2 ^ k) from rfl]
  rw [Nat.testBit_and, hmask, Nat.testBit_mul_pow_two, Nat.testBit_mul_pow_two]
  have hdiv : (x / 2 ^ k).testBit (i - k) = x.testBit (k + (i - k)) := by
    have hsr : x / 2 ^ k = x >>> k := (Nat.shiftRight_eq_div_pow x k).symm
    rw [hsr, Nat.testBit_shiftRight]
  by_cases hki : k ≤ i
  · simp only [ge_iff_le, hki, decide_True, Bool.true_and]
    rw [Nat.testBit_two_pow_sub_one]
    by_cases hi64 : i < 64
    · have hik : i - k < 64 - k := by omega
      rw [hdiv, Nat.add_sub_cancel' hki]
      simp [hik, Bool.and_comm]
    · have hxi : x.testBit i = false := by
        apply Nat.testBit_lt_two_pow
        calc x < W := hx
          _ ≤ 2 ^ i := Nat.pow_le_pow_right (by norm_num) (by omega)
      have hik : ¬ (i - k < 64 - k) := by omega
      rw [hdiv, Nat.add_sub_cancel' hki]
      simp [hxi, hik]
  · simp [ge_iff_le, hki]

/-- Unfolding equation for `get_alignment`. -/
theorem get_alignment_def (addr alignment : Nat) :
    get_alignment addr alignment =
      Nat.land ((addr + (alignment + (W - 1)) % W) % W)
        ((W - 1) - (alignment + (W - 1)) % W) := rfl

/-- For a power-of-two alignment `2^k` and a cursor whose aligned
successor does not overflow `uintptr_t`, `get_alignment` returns
`2^k * ((addr + 2^k - 1) / 2^k)`, the round-up of `addr` to the
alignment. -/
theorem get_alignment_eq (addr k : Nat) (hk : k ≤ 64)
    (hno : addr + 2 ^ k ≤ W) :
    get_alignment addr (2 ^ k) = 2 ^ k * ((addr + 2 ^ k - 1) / 2 ^ k) := by
  have hpos : 0 < 2 ^ k := Nat.pos_pow_of_pos k (by norm_num)
  have hWk : 2 ^ k ≤ W := by
    show 2 ^ k ≤ 2 ^ 64
    exact Nat.pow_le_pow_right (by norm_num) hk
  have ham1 : (2 ^ k + (W - 1)) % W = 2 ^ k - 1 := by
    have h1 : 2 ^ k + (W - 1) = W + (2 ^ k - 1) := by omega
    rw [h1, Nat.add_mod_left, Nat.mod_eq_of_lt (by omega)]
  have hcompl : (W - 1) - (2 ^ k - 1) = W - 2 ^ k := by omega
  have harg : addr + (2 ^ k - 1) = addr + 2 ^ k - 1 := by omega
  have hlt : addr + 2 ^ k - 1 < W := by omega
  rw [get_alignment_def, ham1, hcompl, harg, Nat.mod_eq_of_lt hlt,
    land_high_mask _ k hk hlt]

/-- The aligned address is at least the cursor, strictly less than
cursor + alignment, and a multiple of the alignment. -/
theorem get_alignment_bounds (addr k : Nat) (hk : k ≤ 64)
    (hno : addr + 2 ^ k ≤ W) :
    addr ≤ get_alignment addr (2 ^ k) ∧
      get_alignment addr (2 ^ k) < addr + 2 ^ k ∧
      get_alignment addr (2 ^ k) % 2 ^ k = 0 := by
  have hpos : 0 < 2 ^ k := Nat.pos_pow_of_pos k (by norm_num)
  rw [get_alignment_eq addr k hk hno]
  set m := 2 ^ k with hm
  set x := addr + m - 1 with hxdef
  obtain ⟨hdm, hmod⟩ : m * (x / m) + x % m = x ∧ x % m < m :=
    ⟨Nat.div_add_mod x m, Nat.mod_lt x hpos⟩
  refine ⟨by omega, by omega, Nat.mul_mod_right m _⟩

/-- Minimality: any multiple of the alignment that is `≥` the cursor is
`≥` the aligned address. -/
theorem get_alignment_min (addr k b : Nat) (hk : k ≤ 64)
    (hno : addr + 2 ^ k ≤ W) (hb : addr ≤ b) (hbal : b % 2 ^ k = 0) :
    get_alignment addr (2 ^ k) ≤ b := by
  have hpos : 0 < 2 ^ k := Nat.pos_pow_of_pos k (by norm_num)
  rw [get_alignment_eq addr k hk hno]
  set m := 2 ^ k with hm
  obtain ⟨t, ht⟩ : m ∣ b := Nat.dvd_of_mod_eq_zero hbal
  subst ht
  set x := addr + m - 1 with hxdef
  obtain ⟨hdm, hmod⟩ : m * (x / m) + x % m = x ∧ x % m < m :=
    ⟨Nat.div_add_mod x m, Nat.mod_lt x hpos⟩
  by_contra hcon
  push_neg at hcon
  have htq : t < x / m := by
    by_contra hle
    push_neg at hle
    exact absurd (Nat.mul_le_mul_left m hle) (by omega)
  have hnext : m * (t + 1) ≤ m * (x / m) := Nat.mul_le_mul_left m htq
  rw [Nat.mul_add, Nat.mul_one] at hnext
  omega

/-! ### Case equations for the operations -/

/-- The pointer-arithmetic underflow guard, in `Nat` form. -/
theorem int_guard_iff (cur szT base : Nat) :
    ((cur : Int) - (szT : Int) ≥ (base : Int)) ↔ base + szT ≤ cur := by
  omega

theorem allocate_success (s : MemoryArena) (sizeT alignT : Nat)
    (h : get_alignment s.current_ptr alignT + sizeT ≤ s.base_ptr + s.total_size) :
    allocate s sizeT alignT =
      { ptr := some (get_alignment s.current_ptr alignT)
        state := { s with
          current_ptr := get_alignment s.current_ptr alignT + sizeT }
        ctors := [get_alignment s.current_ptr alignT] } := by
  unfold allocate
  rw [if_neg (by omega)]

theorem allocate_fail (s : MemoryArena) (sizeT alignT : Nat)
    (h : s.base_ptr + s.total_size < get_alignment s.current_ptr alignT + sizeT) :
    allocate s sizeT alignT = { ptr := none, state := s, ctors := [] } := by
  unfold allocate
  rw [if_pos (by omega)]

theorem deallocate_pass (s : MemoryArena) (sizeT object : Nat)
    (h : s.base_ptr + sizeT ≤ s.current_ptr) :
    deallocate s sizeT object =
      { state := { s with current_ptr := s.current_ptr - sizeT }
        dtors := [object] } := by
  unfold deallocate
  rw [if_pos ((int_guard_iff _ _ _).mpr h)]

theorem deallocate_blocked (s : MemoryArena) (sizeT object : Nat)
    (h : s.current_ptr < s.base_ptr + sizeT) :
    deallocate s sizeT object = { state := s, dtors := [] } := by
  unfold deallocate
  rw [if_neg (fun hc => absurd ((int_guard_iff _ _ _).mp hc) (by omega))]

theorem allocate_array_zero (s : MemoryArena) (sizeT alignT : Nat) :
    allocate_array s sizeT alignT 0 = { ptr := none, state := s, ctors := [] } := by
  unfold allocate_array
  rw [if_pos rfl]

theorem allocate_array_overflow (s : MemoryArena) (sizeT alignT count : Nat)
    (hc : count ≠ 0) (h : (W - 1) / sizeT < count) :
    allocate_array s sizeT alignT count =
      { ptr := none, state := s, ctors := [] } := by
  unfold allocate_array
  rw [if_neg hc, if_pos (by omega)]

theorem allocate_array_capacity_fail (s : MemoryArena) (sizeT alignT count : Nat)
    (hc : count ≠ 0) (hov : count ≤ (W - 1) / sizeT)
    (h : s.base_ptr + s.total_size
      < get_alignment s.current_ptr alignT + (count * sizeT) % W) :
    allocate_array s sizeT alignT count =
      { ptr := none, state := s, ctors := [] } := by
  unfold allocate_array
  rw [if_neg hc, if_neg (by omega), if_pos (by omega)]

theorem allocate_array_success (s : MemoryArena) (sizeT alignT count : Nat)
    (hc : count ≠ 0) (hov : count ≤ (W - 1) / sizeT)
    (h : get_alignment s.current_ptr alignT + (count * sizeT) % W
      ≤ s.base_ptr + s.total_size) :
    allocate_array s sizeT alignT count =
      { ptr := some (get_alignment s.current_ptr alignT)
        state := { s with
          current_ptr := get_alignment s.current_ptr alignT + (count * sizeT) % W }
        ctors := (List.range count).map
          (fun i => get_alignment s.current_ptr alignT + i * sizeT) } := by
  unfold allocate_array
  rw [if_neg hc, if_neg (by omega), if_neg (by omega)]

theorem deallocate_array_zero (s : MemoryArena) (sizeT array : Nat) :
    deallocate_array s sizeT 0 array = { state := s, dtors := [] } := by
  unfold deallocate_array
  rw [if_pos rfl]

theorem deallocate_array_pass (s : MemoryArena) (sizeT count array : Nat)
    (hc : count ≠ 0) (h : s.base_ptr + (count * sizeT) % W ≤ s.current_ptr) :
    deallocate_array s sizeT count array =
      { state := { s with current_ptr := s.current_ptr - (count * sizeT) % W }
        dtors := (List.range count).reverse.map
          (fun i => array + i * sizeT) } := by
  unfold deallocate_array
  rw [if_neg hc, if_pos ((int_guard_iff _ _ _).mpr h)]

theorem deallocate_array_blocked (s : MemoryArena) (sizeT count array : Nat)
    (hc : count ≠ 0) (h : s.current_ptr < s.base_ptr + (count * sizeT) % W) :
    deallocate_array s sizeT count array =
      { state := s
        dtors := (List.range count).reverse.map
          (fun i => array + i * sizeT) } := by
  unfold deallocate_array
  rw [if_neg hc,
    if_neg (fun hg => absurd ((int_guard_iff _ _ _).mp hg) (by omega))]

/-- `2 ^ k ≤ W` forces `k ≤ 64`. -/
theorem exponent_le_of_le_W {k : Nat} (h : 2 ^ k ≤ W) : k ≤ 64 :=
  (Nat.pow_le_pow_iff_right (by norm_num)).mp h

/-- Every reachable state keeps the construction-time `base_ptr` and
`total_size`, and its cursor stays inside `[base, base + size]`. -/
theorem reachable_bounds {base size : Nat} {s : MemoryArena}
    (h : Reachable base size s) :
    s.base_ptr = base ∧ s.total_size = size ∧
      base ≤ s.current_ptr ∧ s.current_ptr ≤ base + size := by
  induction h with
  | init =>
    refine ⟨rfl, rfl, Nat.le_refl _, Nat.le_add_right _ _⟩
  | step_allocate s sizeT k hr hno ih =>
    obtain ⟨hb, ht, hlo, hhi⟩ := ih
    have hk : k ≤ 64 := exponent_le_of_le_W (by omega)
    have hcur : s.current_ptr + 2 ^ k ≤ W := by omega
    obtain ⟨hge, _, _⟩ := get_alignment_bounds s.current_ptr k hk hcur
    by_cases hfit :
        get_alignment s.current_ptr (2 ^ k) + sizeT ≤ s.base_ptr + s.total_size
    · rw [allocate_success s sizeT (2 ^ k) hfit]
      dsimp only
      exact ⟨hb, ht, by omega, by omega⟩
    · rw [allocate_fail s sizeT (2 ^ k) (by omega)]
      exact ⟨hb, ht, hlo, hhi⟩
  | step_deallocate s sizeT object hr ih =>
    obtain ⟨hb, ht, hlo, hhi⟩ := ih
    by_cases hg : s.base_ptr + sizeT ≤ s.current_ptr
    · rw [deallocate_pass s sizeT object hg]
      dsimp only
      exact ⟨hb, ht, by omega, by omega⟩
    · rw [deallocate_blocked s sizeT object (by omega)]
      exact ⟨hb, ht, hlo, hhi⟩
  | step_allocate_array s sizeT k count hr hno ih =>
    obtain ⟨hb, ht, hlo, hhi⟩ := ih
    have hk : k ≤ 64 := exponent_le_of_le_W (by omega)
    have hcur : s.current_ptr + 2 ^ k ≤ W := by omega
    obtain ⟨hge, _, _⟩ := get_alignment_bounds s.current_ptr k hk hcur
    by_cases hc : count = 0
    · rw [hc, allocate_array_zero]
      exact ⟨hb, ht, hlo, hhi⟩
    by_cases hov : count ≤ (W - 1) / sizeT
    · by_cases hfit : get_alignment s.current_ptr (2 ^ k) + (count * sizeT) % W
          ≤ s.base_ptr + s.total_size
      · rw [allocate_array_success s sizeT (2 ^ k) count hc hov hfit]
        dsimp only
        exact ⟨hb, ht, by omega, by omega⟩
      · rw [allocate_array_capacity_fail s sizeT (2 ^ k) count hc hov (by omega)]
        exact ⟨hb, ht, hlo, hhi⟩
    · rw [allocate_array_overflow s sizeT (2 ^ k) count hc (by omega)]
      exact ⟨hb, ht, hlo, hhi⟩
  | step_deallocate_array s sizeT count array hr ih =>
    obtain ⟨hb, ht, hlo, hhi⟩ := ih
    by_cases hc : count = 0
    · rw [hc, deallocate_array_zero]
      exact ⟨hb, ht, hlo, hhi⟩
    by_cases hg : s.base_ptr + (count * sizeT) % W ≤ s.current_ptr
    · rw [deallocate_array_pass s sizeT count array hc hg]
      dsimp only
      exact ⟨hb, ht, by omega, by omega⟩
    · rw [deallocate_array_blocked s sizeT count array hc (by omega)]
      exact ⟨hb, ht, hlo, hhi⟩
  | step_reset s hr ih =>
    obtain ⟨hb, ht, hlo, hhi⟩ := ih
    exact ⟨hb, ht, by simp [reset, hb], by simp [reset, hb]⟩

theorem run_deallocs_append (s : MemoryArena) (l1 l2 : List Nat) :
    run_deallocs s (l1 ++ l2) = run_deallocs (run_deallocs s l1) l2 := by
  induction l1 generalizing s with
  | nil => rfl
  | cons x xs ih => simp [run_deallocs, ih]

/-- Core LIFO round-trip computation: popping the sizes in reverse
order lands the cursor at the starting cursor *plus the padding* the
allocations inserted.  (Alignments are powers of two and the buffer's
one-past-the-end address plus one alignment fits in `uintptr_t`, as
C++ guarantees for any real instantiation.) -/
theorem round_trip_cursor (base size : Nat) (ops : List (Nat × Nat)) :
    ∀ (s s' : MemoryArena),
    s.base_ptr = base → s.total_size = size →
    (∀ p ∈ ops, (∃ k : Nat, p.2 = 2 ^ k) ∧ base + size + p.2 ≤ W) →
    base ≤ s.current_ptr → s.current_ptr ≤ base + size →
    run_allocs s ops = some s' →
    run_deallocs s' ((ops.map Prod.fst).reverse) =
      { base_ptr := base
        current_ptr := s.current_ptr + total_padding s ops
        total_size := size } := by
  induction ops with
  | nil =>
    intro s s' hb ht _ _ _ hrun
    simp only [run_allocs, Option.some.injEq] at hrun
    subst hrun
    simp only [List.map_nil, List.reverse_nil, run_deallocs, total_padding]
    rcases s with ⟨sb, sc, st⟩
    simp_all
  | cons p rest ih =>
    rcases p with ⟨szT, alT⟩
    intro s s' hb ht hwf hlo hhi hrun
    obtain ⟨sb, sc, st⟩ := s
    replace hb : sb = base := hb
    replace ht : st = size := ht
    replace hlo : base ≤ sc := hlo
    replace hhi : sc ≤ base + size := hhi
    subst sb
    subst st
    obtain ⟨⟨k, hkeq⟩, hno⟩ := hwf (szT, alT) (List.mem_cons_self _ _)
    replace hkeq : alT = 2 ^ k := hkeq
    replace hno : base + size + alT ≤ W := hno
    subst hkeq
    have hk : k ≤ 64 := exponent_le_of_le_W (by omega)
    have hcur : sc + 2 ^ k ≤ W := by omega
    obtain ⟨hge, hlt2, hmod⟩ := get_alignment_bounds sc k hk hcur
    generalize hG : get_alignment sc (2 ^ k) = g at hge hlt2 hmod
    by_cases hfit : g + szT ≤ base + size
    · have hstep : run_allocs (⟨base, sc, size⟩ : MemoryArena)
          ((szT, 2 ^ k) :: rest)
          = run_allocs (⟨base, g + szT, size⟩ : MemoryArena) rest := by
        have hsucc := allocate_success ⟨base, sc, size⟩ szT (2 ^ k)
          (show get_alignment sc (2 ^ k) + szT ≤ base + size by
            rw [hG]; omega)
        simp [run_allocs, hsucc, hG]
      rw [hstep] at hrun
      have hres := ih ⟨base, g + szT, size⟩ s' rfl rfl
        (fun q hq => hwf q (List.mem_cons_of_mem _ hq))
        (show base ≤ g + szT by omega)
        (show g + szT ≤ base + size by omega) hrun
      have hres2 : run_deallocs s' ((rest.map Prod.fst).reverse)
          = ⟨base, g + szT
              + total_padding (⟨base, g + szT, size⟩ : MemoryArena) rest,
              size⟩ := hres
      show run_deallocs s' ((((szT, 2 ^ k) :: rest).map Prod.fst).reverse)
        = ⟨base,
            sc + total_padding (⟨base, sc, size⟩ : MemoryArena)
              ((szT, 2 ^ k) :: rest), size⟩
      rw [List.map_cons, List.reverse_cons, run_deallocs_append, hres2]
      have hpad : total_padding (⟨base, sc, size⟩ : MemoryArena)
          ((szT, 2 ^ k) :: rest)
          = (g - sc)
            + total_padding (⟨base, g + szT, size⟩ : MemoryArena) rest := by
        show (get_alignment sc (2 ^ k) - sc)
            + total_padding
              (⟨base, get_alignment sc (2 ^ k) + szT, size⟩ : MemoryArena) rest
          = (g - sc)
            + total_padding (⟨base, g + szT, size⟩ : MemoryArena) rest
        rw [hG]
      have hguard : (⟨base, g + szT
            + total_padding (⟨base, g + szT, size⟩ : MemoryArena) rest,
            size⟩ : MemoryArena).base_ptr + szT
          ≤ (⟨base, g + szT
            + total_padding (⟨base, g + szT, size⟩ : MemoryArena) rest,
            size⟩ : MemoryArena).current_ptr := by
        show base + szT ≤ g + szT
          + total_padding (⟨base, g + szT, size⟩ : MemoryArena) rest
        omega
      have hsingle : run_deallocs (⟨base, g + szT
            + total_padding (⟨base, g + szT, size⟩ : MemoryArena) rest,
            size⟩ : MemoryArena) [szT]
          = ⟨base, g
              + total_padding (⟨base, g + szT, size⟩ : MemoryArena) rest,
              size⟩ := by
        rw [show run_deallocs (⟨base, g + szT
              + total_padding (⟨base, g + szT, size⟩ : MemoryArena) rest,
              size⟩ : MemoryArena) [szT]
            = (deallocate (⟨base, g + szT
              + total_padding (⟨base, g + szT, size⟩ : MemoryArena) rest,
              size⟩ : MemoryArena) szT 0).state from rfl,
          deallocate_pass _ szT 0 hguard]
        show (⟨base, g + szT
            + total_padding (⟨base, g + szT, size⟩ : MemoryArena) rest - szT,
            size⟩ : MemoryArena) = _
        congr 1
        omega
      rw [hsingle, hpad]
      congr 1
      omega
    · have hstep : run_allocs (⟨base, sc, size⟩ : MemoryArena)
          ((szT, 2 ^ k) :: rest) = none := by
        have hfail := allocate_fail ⟨base, sc, size⟩ szT (2 ^ k)
          (show base + size < get_alignment sc (2 ^ k) + szT by
            rw [hG]; omega)
        simp [run_allocs, hfail]
      rw [hstep] at hrun
      exact absurd hrun (by simp)

/-! ### Claim theorems -/

/-- C2 (counterexample): on an empty arena (`offset = 0 < sizeof(T)`),
`deallocate<T>` runs **no** destructor — the destructor call sits inside
the underflow guard, so the whole call is a no-op.  This refutes the
claim that the destructor runs regardless of the guard. -/
theorem C2_no_dtor_when_guard_blocks :
    (deallocate (MemoryArena.mkArena 0 100) 4 7).dtors = [] ∧
    (deallocate (MemoryArena.mkArena 0 100) 4 7).dtors ≠ [7] ∧
    (deallocate (MemoryArena.mkArena 0 100) 4 7).state
      = MemoryArena.mkArena 0 100 := by
  decide

/-- C2 (amended): `deallocate<T>(handle)` runs the destructor *and*
retreats the cursor when `offset ≥ sizeof(T)`; when `offset < sizeof(T)`
the entire call — destructor included — is a silent no-op. -/
theorem C2_deallocate_guarded_dtor (s : MemoryArena) (sizeT object : Nat) :
    (s.base_ptr + sizeT ≤ s.current_ptr →
      deallocate s sizeT object =
        { state := { s with current_ptr := s.current_ptr - sizeT }
          dtors := [object] }) ∧
    (s.current_ptr < s.base_ptr + sizeT →
      deallocate s sizeT object = { state := s, dtors := [] }) :=
  ⟨deallocate_pass s sizeT object, deallocate_blocked s sizeT object⟩

/-- C2 witness: both branches at concrete inputs. -/
theorem C2_deallocate_guarded_dtor_witness :
    deallocate ⟨0, 10, 100⟩ 4 6 = ⟨⟨0, 6, 100⟩, [6]⟩ ∧
    deallocate ⟨0, 3, 100⟩ 4 6 = ⟨⟨0, 3, 100⟩, []⟩ :=
  ⟨(C2_deallocate_guarded_dtor ⟨0, 10, 100⟩ 4 6).1 (by decide),
   (C2_deallocate_guarded_dtor ⟨0, 3, 100⟩ 4 6).2 (by decide)⟩

/-- C4: `allocate<T>()` fails exactly when the aligned address plus
`sizeof(T)` passes the end of the buffer, and `allocate_array<T>(count)`
fails exactly when `count == 0`, `count > SIZE_MAX / sizeof(T)`, or the
aligned address plus `count * sizeof(T)` passes the end of the buffer;
each failure returns `none` (never an exception — the operations are
total) and leaves the state unchanged. -/
theorem C4_allocation_failure_exact (s : MemoryArena)
    (sizeT alignT count : Nat) :
    ((allocate s sizeT alignT).ptr = none ↔
      s.base_ptr + s.total_size < get_alignment s.current_ptr alignT + sizeT) ∧
    ((allocate s sizeT alignT).ptr = none →
      (allocate s sizeT alignT).state = s) ∧
    ((allocate_array s sizeT alignT count).ptr = none ↔
      (count = 0 ∨ (W - 1) / sizeT < count ∨
        s.base_ptr + s.total_size
          < get_alignment s.current_ptr alignT + count * sizeT)) ∧
    ((allocate_array s sizeT alignT count).ptr = none →
      (allocate_array s sizeT alignT count).state = s) := by
  refine ⟨?_, ?_, ?_, ?_⟩
  · by_cases h : get_alignment s.current_ptr alignT + sizeT
        ≤ s.base_ptr + s.total_size
    · rw [allocate_success s sizeT alignT h]
      simp only [iff_iff_implies_and_implies]
      exact ⟨fun hc => absurd hc (by simp), fun hc => absurd hc (by omega)⟩
    · rw [allocate_fail s sizeT alignT (by omega)]
      exact ⟨fun _ => by omega, fun _ => rfl⟩
  · by_cases h : get_alignment s.current_ptr alignT + sizeT
        ≤ s.base_ptr + s.total_size
    · rw [allocate_success s sizeT alignT h]
      exact fun hc => absurd hc (by simp)
    · rw [allocate_fail s sizeT alignT (by omega)]
      exact fun _ => rfl
  · by_cases hc0 : count = 0
    · subst hc0
      rw [allocate_array_zero]
      simp
    by_cases hov : count ≤ (W - 1) / sizeT
    · have hW : 0 < W := by norm_num [W]
      have hmul : count * sizeT < W := by
        rcases Nat.eq_zero_or_pos sizeT with hsz | hsz
        · subst hsz
          simpa using hW
        · have := (Nat.le_div_iff_mul_le hsz).mp hov
          omega
      have hmod : (count * sizeT) % W = count * sizeT := Nat.mod_eq_of_lt hmul
      by_cases hfit : get_alignment s.current_ptr alignT + (count * sizeT) % W
          ≤ s.base_ptr + s.total_size
      · rw [allocate_array_success s sizeT alignT count hc0 hov hfit]
        rw [hmod] at hfit
        simp only [iff_iff_implies_and_implies]
        constructor
        · intro hc; exact absurd hc (by simp)
        · intro hc
          rcases hc with h1 | h2 | h3
          · exact absurd h1 hc0
          · omega
          · omega
      · rw [allocate_array_capacity_fail s sizeT alignT count hc0 hov (by omega)]
        rw [hmod] at hfit
        simp only [iff_iff_implies_and_implies]
        exact ⟨fun _ => Or.inr (Or.inr (by omega)), fun _ => by simp⟩
    · rw [allocate_array_overflow s sizeT alignT count hc0 (by omega)]
      simp only [iff_iff_implies_and_implies]
      exact ⟨fun _ => Or.inr (Or.inl (by omega)), fun _ => by simp⟩
  · by_cases hc0 : count = 0
    · subst hc0
      rw [allocate_array_zero]
      exact fun _ => rfl
    by_cases hov : count ≤ (W - 1) / sizeT
    · by_cases hfit : get_alignment s.current_ptr alignT + (count * sizeT) % W
          ≤ s.base_ptr + s.total_size
      · rw [allocate_array_success s sizeT alignT count hc0 hov hfit]
        exact fun hc => absurd hc (by simp)
      · rw [allocate_array_capacity_fail s sizeT alignT count hc0 hov (by omega)]
        exact fun _ => rfl
    · rw [allocate_array_overflow s sizeT alignT count hc0 (by omega)]
      exact fun _ => rfl

/-- C4 witness: a capacity failure of `allocate` and a `count == 0`
failure of `allocate_array`, both leaving the state unchanged. -/
theorem C4_allocation_failure_exact_witness :
    (allocate (⟨0, 0, 2⟩ : MemoryArena) 4 1).state = ⟨0, 0, 2⟩ ∧
    (allocate_array (⟨0, 0, 2⟩ : MemoryArena) 4 1 0).state = ⟨0, 0, 2⟩ :=
  ⟨(C4_allocation_failure_exact ⟨0, 0, 2⟩ 4 1 0).2.1 (by decide),
   (C4_allocation_failure_exact ⟨0, 0, 2⟩ 4 1 0).2.2.2 (by decide)⟩

/-- C8: `reset()` unconditionally returns the cursor to the start of
the buffer, runs no destructor, and afterwards
`remaining() == capacity`, whatever the prior history. -/
theorem C8_reset_behavior (s : MemoryArena) :
    (reset s).state = { s with current_ptr := s.base_ptr } ∧
    (reset s).dtors = [] ∧
    remaining (reset s).state = s.total_size := by
  refine ⟨rfl, rfl, ?_⟩
  show s.total_size - (s.base_ptr - s.base_ptr) = s.total_size
  omega

/-- C7: for `count > 0`, `deallocate_array<T>(handle, count)` destructs
the elements in reverse index order `count-1 … 0` (the `j`-th destructor
call hits element `count - 1 - j`), and — in the non-overflowing regime
where `count * sizeof(T)` denotes the mathematical product — retreats
the cursor by `count * sizeof(T)` exactly when that does not move the
offset below zero; `count == 0` is a complete no-op. -/
theorem C7_deallocate_array_behavior (s : MemoryArena)
    (sizeT count array : Nat) :
    (0 < count →
      (deallocate_array s sizeT count array).dtors
        = ((List.range count).reverse).map (fun i => array + i * sizeT) ∧
      ∀ j : Nat, j < count →
        ((deallocate_array s sizeT count array).dtors).get? j
          = some (array + (count - 1 - j) * sizeT)) ∧
    (0 < count → count ≤ (W - 1) / sizeT →
      (s.base_ptr + count * sizeT ≤ s.current_ptr →
        (deallocate_array s sizeT count array).state
          = { s with current_ptr := s.current_ptr - count * sizeT }) ∧
      (s.current_ptr < s.base_ptr + count * sizeT →
        (deallocate_array s sizeT count array).state = s)) ∧
    (count = 0 →
      deallocate_array s sizeT count array = { state := s, dtors := [] }) := by
  have hdt : count ≠ 0 →
      (deallocate_array s sizeT count array).dtors
        = ((List.range count).reverse).map (fun i => array + i * sizeT) := by
    intro hc
    by_cases hg : s.base_ptr + (count * sizeT) % W ≤ s.current_ptr
    · rw [deallocate_array_pass s sizeT count array hc hg]
    · rw [deallocate_array_blocked s sizeT count array hc (by omega)]
  refine ⟨fun hpos => ⟨hdt (by omega), ?_⟩, fun hpos hov => ?_,
    fun hc0 => by rw [hc0, deallocate_array_zero]⟩
  · intro j hj
    rw [hdt (by omega), List.get?_map]
    have hlen : j < (List.range count).length := by simpa using hj
    rw [List.get?_reverse hlen, List.length_range,
      List.get?_range (show count - 1 - j < count by omega)]
    rfl
  · have hc : count ≠ 0 := by omega
    have hW : 0 < W := by norm_num [W]
    have hmul : count * sizeT < W := by
      rcases Nat.eq_zero_or_pos sizeT with hsz | hsz
      · subst hsz
        simpa using hW
      · have := (Nat.le_div_iff_mul_le hsz).mp hov
        omega
    have hmod : (count * sizeT) % W = count * sizeT := Nat.mod_eq_of_lt hmul
    constructor
    · intro hg
      rw [deallocate_array_pass s sizeT count array hc (by omega), hmod]
    · intro hg
      rw [deallocate_array_blocked s sizeT count array hc (by omega)]

/-- C7 witness: three `int32`-sized elements at handle address 8 are
destroyed in the order 16, 12, 8, the cursor retreats from 20 to 8, and
`count == 0` is a no-op. -/
theorem C7_deallocate_array_behavior_witness :
    (deallocate_array ⟨0, 20, 100⟩ 4 3 8).dtors = [16, 12, 8] ∧
    ((deallocate_array ⟨0, 20, 100⟩ 4 3 8).dtors).get? 1 = some 12 ∧
    (deallocate_array ⟨0, 20, 100⟩ 4 3 8).state = ⟨0, 8, 100⟩ ∧
    deallocate_array ⟨0, 20, 100⟩ 4 0 8 = ⟨⟨0, 20, 100⟩, []⟩ := by
  refine ⟨?_, ?_, ?_, ?_⟩
  · rw [((C7_deallocate_array_behavior ⟨0, 20, 100⟩ 4 3 8).1 (by decide)).1]
    decide
  · rw [((C7_deallocate_array_behavior ⟨0, 20, 100⟩ 4 3 8).1 (by decide)).2
      1 (by decide)]
  · exact (((C7_deallocate_array_behavior ⟨0, 20, 100⟩ 4 3 8).2.1
      (by decide) (by decide)).1 (by decide))
  · exact (C7_deallocate_array_behavior ⟨0, 20, 100⟩ 4 0 8).2.2 rfl

/-- C10: `deallocate_array` performs no overflow check: past the
`count > SIZE_MAX / sizeof(T)` threshold the retreat amount is the
product reduced modulo `2^64` — strictly smaller than the mathematical
product — and both the underflow guard and the cursor decrement use the
wrapped value. -/
theorem C10_deallocate_array_wraps (s : MemoryArena)
    (sizeT count array : Nat) (hsz : 0 < sizeT)
    (hov : (W - 1) / sizeT < count) :
    (count * sizeT) % W < count * sizeT ∧
    (deallocate_array s sizeT count array).state =
      (if s.base_ptr + (count * sizeT) % W ≤ s.current_ptr
        then { s with current_ptr := s.current_ptr - (count * sizeT) % W }
        else s) := by
  have hc0 : count ≠ 0 := by
    intro h
    rw [h] at hov
    exact Nat.not_lt_zero _ hov
  have hq := Nat.div_add_mod (W - 1) sizeT
  have hr : (W - 1) % sizeT < sizeT := Nat.mod_lt _ hsz
  have hW : 0 < W := by norm_num [W]
  have hmul : W ≤ count * sizeT := by
    have h1 : (W - 1) / sizeT + 1 ≤ count := by omega
    have h2 : ((W - 1) / sizeT + 1) * sizeT ≤ count * sizeT :=
      Nat.mul_le_mul_right sizeT h1
    rw [Nat.add_mul, Nat.one_mul, Nat.mul_comm ((W - 1) / sizeT) sizeT] at h2
    omega
  have hmod := Nat.mod_lt (count * sizeT) hW
  refine ⟨by omega, ?_⟩
  by_cases hg : s.base_ptr + (count * sizeT) % W ≤ s.current_ptr
  · rw [deallocate_array_pass s sizeT count array hc0 hg, if_pos hg]
  · rw [deallocate_array_blocked s sizeT count array hc0 (by omega), if_neg hg]

/-- C10 witness: `count = 2^62`, `sizeof(T) = 4`: the product `2^64`
wraps to `0`, so the guard passes vacuously and the cursor does not
move at all. -/
theorem C10_deallocate_array_wraps_witness :
    (2 ^ 62 * 4) % W < 2 ^ 62 * 4 ∧
    (deallocate_array ⟨0, 50, 100⟩ 4 (2 ^ 62) 0).state =
      (if 0 + (2 ^ 62 * 4) % W ≤ 50
        then (⟨0, 50 - (2 ^ 62 * 4) % W, 100⟩ : MemoryArena)
        else ⟨0, 50, 100⟩) :=
  C10_deallocate_array_wraps ⟨0, 50, 100⟩ 4 (2 ^ 62) 0 (by decide) (by decide)

/-- C3: in every reachable state the offset `current_ptr - base_ptr`
lies in `[0, capacity]` (the cursor never retreats past the buffer
start, so the `Nat` offset is exact), and `remaining()` returns exactly
`capacity - offset`. -/
theorem C3_offset_invariant (base size : Nat) (s : MemoryArena)
    (h : Reachable base size s) :
    s.base_ptr ≤ s.current_ptr ∧
    s.current_ptr - s.base_ptr ≤ size ∧
    remaining s = size - (s.current_ptr - s.base_ptr) := by
  obtain ⟨hb, ht, hlo, hhi⟩ := reachable_bounds h
  refine ⟨by omega, by omega, ?_⟩
  show s.total_size - (s.current_ptr - s.base_ptr)
    = size - (s.current_ptr - s.base_ptr)
  rw [ht]

/-- C3 witness: the invariant at the reachable state after one
`allocate<int32>()` on a fresh 100-byte arena. -/
theorem C3_offset_invariant_witness :
    (allocate (MemoryArena.mkArena 0 100) 4 (2 ^ 2)).state.base_ptr
        ≤ (allocate (MemoryArena.mkArena 0 100) 4 (2 ^ 2)).state.current_ptr ∧
    (allocate (MemoryArena.mkArena 0 100) 4 (2 ^ 2)).state.current_ptr
        - (allocate (MemoryArena.mkArena 0 100) 4 (2 ^ 2)).state.base_ptr
        ≤ 100 ∧
    remaining (allocate (MemoryArena.mkArena 0 100) 4 (2 ^ 2)).state
      = 100 - ((allocate (MemoryArena.mkArena 0 100) 4 (2 ^ 2)).state.current_ptr
        - (allocate (MemoryArena.mkArena 0 100) 4 (2 ^ 2)).state.base_ptr) :=
  C3_offset_invariant 0 100 _
    (Reachable.step_allocate (MemoryArena.mkArena 0 100) 4 2
      Reachable.init (by decide))

/-- C5: for a power-of-two alignment `2^k` (and a cursor whose aligned
successor does not overflow `uintptr_t`), a successful `allocate<T>()`
returns exactly the `(addr + align - 1) & ~(align - 1)` address
(`get_alignment`), which is a multiple of the alignment and the
smallest such address `≥` the current cursor. -/
theorem C5_alignment_correct (s : MemoryArena) (sizeT k a : Nat)
    (hk : k ≤ 64) (hno : s.current_ptr + 2 ^ k ≤ W)
    (hsucc : (allocate s sizeT (2 ^ k)).ptr = some a) :
    a = get_alignment s.current_ptr (2 ^ k) ∧
    a % 2 ^ k = 0 ∧
    s.current_ptr ≤ a ∧
    (∀ b : Nat, s.current_ptr ≤ b → b % 2 ^ k = 0 → a ≤ b) := by
  have ha : a = get_alignment s.current_ptr (2 ^ k) := by
    by_cases hfit : get_alignment s.current_ptr (2 ^ k) + sizeT
        ≤ s.base_ptr + s.total_size
    · rw [allocate_success s sizeT (2 ^ k) hfit] at hsucc
      exact (Option.some.inj hsucc).symm
    · rw [allocate_fail s sizeT (2 ^ k) (by omega)] at hsucc
      exact absurd hsucc (by simp)
  obtain ⟨hge, hlt, hmod⟩ := get_alignment_bounds s.current_ptr k hk hno
  refine ⟨ha, ?_, ?_, ?_⟩
  · rw [ha]
    exact hmod
  · rw [ha]
    exact hge
  · intro b hb hbal
    rw [ha]
    exact get_alignment_min s.current_ptr k b hk hno hb hbal

/-- C5 witness: `allocate<double aligned to 8>()` on a cursor at
address 1 returns address 8 — aligned, above the cursor, and below the
aligned address 16. -/
theorem C5_alignment_correct_witness :
    8 = get_alignment (⟨0, 1, 100⟩ : MemoryArena).current_ptr (2 ^ 3) ∧
    8 % 2 ^ 3 = 0 ∧
    (⟨0, 1, 100⟩ : MemoryArena).current_ptr ≤ 8 ∧
    (8 : Nat) ≤ 16 := by
  have h := C5_alignment_correct ⟨0, 1, 100⟩ 8 3 8 (by decide) (by decide)
    (by decide)
  exact ⟨h.1, h.2.1, h.2.2.1, h.2.2.2 16 (by decide) (by decide)⟩

/-- C6: for `0 < count ≤ SIZE_MAX / sizeof(T)` with the aligned request
fitting in the buffer, `allocate_array<T>(count)` returns the aligned
address, advances the cursor to `aligned + count * sizeof(T)`, and
default-constructs exactly `count` elements in index order `0 … count-1`
(the `j`-th constructor call is at element `j`); the returned handle is
the address of element 0. -/
theorem C6_allocate_array_success_behavior (s : MemoryArena)
    (sizeT alignT count : Nat) (hc : 0 < count)
    (hov : count ≤ (W - 1) / sizeT)
    (hfit : get_alignment s.current_ptr alignT + count * sizeT
      ≤ s.base_ptr + s.total_size) :
    (allocate_array s sizeT alignT count).ptr
      = some (get_alignment s.current_ptr alignT) ∧
    (allocate_array s sizeT alignT count).state
      = { s with current_ptr :=
          get_alignment s.current_ptr alignT + count * sizeT } ∧
    (allocate_array s sizeT alignT count).ctors
      = (List.range count).map
          (fun i => get_alignment s.current_ptr alignT + i * sizeT) ∧
    ((allocate_array s sizeT alignT count).ctors).length = count ∧
    (∀ j : Nat, j < count →
      ((allocate_array s sizeT alignT count).ctors).get? j
        = some (get_alignment s.current_ptr alignT + j * sizeT)) ∧
    ((allocate_array s sizeT alignT count).ctors).get? 0
      = (allocate_array s sizeT alignT count).ptr := by
  have hW : 0 < W := by norm_num [W]
  have hmul : count * sizeT < W := by
    rcases Nat.eq_zero_or_pos sizeT with hsz | hsz
    · subst hsz
      simpa using hW
    · have := (Nat.le_div_iff_mul_le hsz).mp hov
      omega
  have hmod : (count * sizeT) % W = count * sizeT := Nat.mod_eq_of_lt hmul
  have hs := allocate_array_success s sizeT alignT count (by omega) hov
    (by omega)
  rw [hs]
  refine ⟨rfl, by rw [hmod], rfl, by simp, ?_, ?_⟩
  · intro j hj
    show ((List.range count).map
        (fun i => get_alignment s.current_ptr alignT + i * sizeT)).get? j
      = some (get_alignment s.current_ptr alignT + j * sizeT)
    rw [List.get?_map, List.get?_range hj]
    rfl
  · show ((List.range count).map
        (fun i => get_alignment s.current_ptr alignT + i * sizeT)).get? 0
      = some (get_alignment s.current_ptr alignT)
    rw [List.get?_map, List.get?_range hc]
    simp

/-- C6 witness: `allocate_array<int32>(5)` on a fresh 64-byte arena
returns address 0, moves the cursor to 20, and constructs elements at
0, 4, 8, 12, 16 in that order. -/
theorem C6_allocate_array_success_behavior_witness :
    (allocate_array (⟨0, 0, 64⟩ : MemoryArena) 4 4 5).ptr = some 0 ∧
    (allocate_array (⟨0, 0, 64⟩ : MemoryArena) 4 4 5).state = ⟨0, 20, 64⟩ ∧
    (allocate_array (⟨0, 0, 64⟩ : MemoryArena) 4 4 5).ctors
      = [0, 4, 8, 12, 16] ∧
    ((allocate_array (⟨0, 0, 64⟩ : MemoryArena) 4 4 5).ctors).get? 2
      = some 8 := by
  have h := C6_allocate_array_success_behavior ⟨0, 0, 64⟩ 4 4 5 (by decide)
    (by decide) (by decide)
  refine ⟨?_, ?_, ?_, ?_⟩
  · rw [h.1]
    decide
  · rw [h.2.1]
    decide
  · rw [h.2.2.1]
    decide
  · rw [h.2.2.2.2.1 2 (by decide)]
    decide

/-- C1 (counterexample): the spec's own scenario — `int32`, `float64`,
`int8` allocated in order on a 100-byte arena and deallocated in exact
reverse order — ends with `remaining() = 96`, not 100: the 4 padding
bytes inserted before the `float64` are never reclaimed, because
`deallocate` retreats by `sizeof(T)` only. -/
theorem C1_padding_not_restored :
    remaining (MemoryArena.mkArena 0 100) = 100 ∧
    run_allocs (MemoryArena.mkArena 0 100) [(4, 4), (8, 8), (1, 1)]
      = some ⟨0, 17, 100⟩ ∧
    remaining (run_deallocs (⟨0, 17, 100⟩ : MemoryArena) [1, 8, 4]) = 96 ∧
    (96 : Nat) ≠ 100 := by
  decide

/-- C1 (amended): after a fully successful allocation sequence followed
by deallocation in exact reverse order, `remaining()` equals its value
before the sequence **minus the total alignment padding** the
allocations inserted; in particular it is restored exactly when no
padding was inserted. -/
theorem C1_round_trip_remaining (base size : Nat) (ops : List (Nat × Nat))
    (s s' : MemoryArena)
    (hb : s.base_ptr = base) (ht : s.total_size = size)
    (hwf : ∀ p ∈ ops, (∃ k : Nat, p.2 = 2 ^ k) ∧ base + size + p.2 ≤ W)
    (hlo : base ≤ s.current_ptr) (hhi : s.current_ptr ≤ base + size)
    (hrun : run_allocs s ops = some s') :
    remaining (run_deallocs s' ((ops.map Prod.fst).reverse))
      = remaining s - total_padding s ops ∧
    (total_padding s ops = 0 →
      remaining (run_deallocs s' ((ops.map Prod.fst).reverse))
        = remaining s) := by
  have h := round_trip_cursor base size ops s s' hb ht hwf hlo hhi hrun
  have h1 : remaining (run_deallocs s' ((ops.map Prod.fst).reverse))
      = size - (s.current_ptr + total_padding s ops - base) := by
    rw [h]
    rfl
  have h2 : remaining s = size - (s.current_ptr - base) := by
    show s.total_size - (s.current_ptr - s.base_ptr) = _
    rw [hb, ht]
  constructor
  · rw [h1, h2]
    omega
  · intro h0
    rw [h1, h2, h0]
    omega

/-- C1 witness: the same `int32` / `float64` / `int8` scenario through
the amended theorem — `remaining()` ends at `100 - 4` where 4 is the
padding inserted before the `float64`. -/
theorem C1_round_trip_remaining_witness :
    remaining (run_deallocs (⟨0, 17, 100⟩ : MemoryArena)
        (([(4, 4), (8, 8), (1, 1)].map Prod.fst).reverse))
      = remaining (MemoryArena.mkArena 0 100)
        - total_padding (MemoryArena.mkArena 0 100) [(4, 4), (8, 8), (1, 1)] :=
  (C1_round_trip_remaining 0 100 [(4, 4), (8, 8), (1, 1)]
    (MemoryArena.mkArena 0 100) ⟨0, 17, 100⟩ rfl rfl
    (by
      intro p hp
      fin_cases hp
      · exact ⟨⟨2, rfl⟩, by decide⟩
      · exact ⟨⟨3, rfl⟩, by decide⟩
      · exact ⟨⟨0, rfl⟩, by decide⟩)
    (by decide) (by decide) (by decide)).1

